import Mathlib

/-!
# Verification of the metromap.io octilinear routing and corner-smoothing engine

Shallow embedding of the line-routing code of `src/app/game/pathfinding/LinePath.ts`
and of the fillet (corner-rounding) generator of the repository's Harry Beck
line-rendering document (`calculateCornerRadius` / `createBendCurve`).

Modelling conventions:
* Station coordinates are integer grid-vertex coordinates (the engine's input
  contract); all derived geometry (waypoints, bend points, curve control points)
  is computed in `ℚ`.  The source computes with IEEE doubles; on the inputs the
  engine receives every branch condition below is decided exactly, so exact
  rational arithmetic is the intended semantics of the float code.
* `Math.hypot` comparisons (sums of Euclidean distances) are decided by an
  exact squared-form test (`hypotSumLtTwice`), proved equivalent to the real
  square-root comparison (`hypotSumLtTwice_iff`).
* The angle snapper of the source computes `rawAngle = atan2(dy,dx)` in degrees
  and picks the candidate among [0,45,…,315] minimising the wrapped distance
  `|angleDifference rawAngle c|`, earlier candidate winning ties.  Minimising
  the wrapped angular distance between the vector's angle and a candidate
  direction is equivalent to maximising the cosine of that distance, i.e. the
  dot product of the vector with the candidate's unit vector; those cosine
  comparisons are decided exactly on integers by `sqrtCmpGt` (sign analysis
  plus squaring, since the only norms occurring are 1 and √2).  `snapVec`
  below is the source loop with the comparison realised that way; ties cannot
  occur for integer inputs (tan 22.5° is irrational), and for the zero vector
  `atan2(0,0) = 0` and the loop's initial candidate agree on EAST.
  The loop itself, as a function of the raw angle, is embedded separately and
  literally as `snapLoop` over `ℚ`, with `angleDifference` as in the source.
-/

/-- The 8 canonical compass directions of `LinePath.ts` (a numeric TS enum;
the numeric value of each variant is `Direction.deg`). -/
inductive Direction where
  | EAST
  | SOUTHEAST
  | SOUTH
  | SOUTHWEST
  | WEST
  | NORTHWEST
  | NORTH
  | NORTHEAST
deriving DecidableEq, Repr

/-- Numeric value of the TS enum `Direction` (degrees, y-axis pointing down). -/
def Direction.deg : Direction → ℚ
  | .EAST => 0
  | .SOUTHEAST => 45
  | .SOUTH => 90
  | .SOUTHWEST => 135
  | .WEST => 180
  | .NORTHWEST => 225
  | .NORTH => 270
  | .NORTHEAST => 315

/-- `DIRECTION_VECTORS` of `LinePath.ts`: the (dx, dy) vector of each direction. -/
def DIRECTION_VECTORS : Direction → ℤ × ℤ
  | .EAST => (1, 0)
  | .SOUTHEAST => (1, 1)
  | .SOUTH => (0, 1)
  | .SOUTHWEST => (-1, 1)
  | .WEST => (-1, 0)
  | .NORTHWEST => (-1, -1)
  | .NORTH => (0, -1)
  | .NORTHEAST => (1, -1)

/-- A station: integer grid-vertex coordinates (`vertexX`, `vertexY`),
the only fields of `Station` the routing engine reads. -/
structure Station where
  vertexX : ℤ
  vertexY : ℤ
deriving DecidableEq, Repr

/-- Waypoint role tag (`"STATION" | "BEND"` in the source). -/
inductive WaypointType where
  | STATION
  | BEND
deriving DecidableEq, Repr

/-- `Waypoint` of `LinePath.ts`: a point with a role and optional
incoming/outgoing directions. -/
structure Waypoint where
  x : ℚ
  y : ℚ
  type : WaypointType
  incomingAngle : Option Direction := none
  outgoingAngle : Option Direction := none
deriving DecidableEq, Repr

/-- `LineSegment` of `LinePath.ts`. -/
structure LineSegment where
  fromStation : Station
  toStation : Station
  entryAngle : Direction
  exitAngle : Direction
  waypoints : List Waypoint
deriving DecidableEq, Repr

/-! ## angleDifference (lines 54–59 of `LinePath.ts`)

The two `while` loops of the source, embedded as two well-founded
recursions over `ℚ`. -/

/-- First loop of `angleDifference`: `while (diff > 180) diff -= 360`. -/
def reduceDown (d : ℚ) : ℚ :=
  if h : 180 < d then reduceDown (d - 360) else d
termination_by (⌈d / 360⌉).toNat
decreasing_by
  have h0 : (0 : ℚ) < d / 360 := div_pos (by linarith) (by norm_num)
  have h1 : 0 < ⌈d / 360⌉ := Int.ceil_pos.mpr h0
  have h2 : (d - 360) / 360 = d / 360 - 1 := by ring
  have h3 : ⌈(d - 360) / 360⌉ = ⌈d / 360⌉ - 1 := by
    rw [h2, Int.ceil_sub_one]
  simp only [h3]
  omega

/-- Second loop of `angleDifference`: `while (diff < -180) diff += 360`. -/
def reduceUp (d : ℚ) : ℚ :=
  if h : d < -180 then reduceUp (d + 360) else d
termination_by (⌈-d / 360⌉).toNat
decreasing_by
  have h0 : (0 : ℚ) < -d / 360 := div_pos (by linarith) (by norm_num)
  have h1 : 0 < ⌈-d / 360⌉ := Int.ceil_pos.mpr h0
  have h2 : -(d + 360) / 360 = -d / 360 - 1 := by ring
  have h3 : ⌈-(d + 360) / 360⌉ = ⌈-d / 360⌉ - 1 := by
    rw [h2, Int.ceil_sub_one]
  simp only [h3]
  omega

/-- `angleDifference` (lines 54–59): difference wrapped into [-180, 180]. -/
def angleDifference (angle1 angle2 : ℚ) : ℚ :=
  reduceUp (reduceDown (angle1 - angle2))

/-! ## The angle snapper -/

/-- The spec's `normalizedDelta`: the unique representative of an angle in
(-180, 180] modulo 360 (used to state turning angles of bends). -/
def normalizedDelta (a : ℚ) : ℚ :=
  a - 360 * ⌈(a - 180) / 360⌉

/-- The candidate list `possibleAngles = [0, 45, 90, 135, 180, 225, 270, 315]`
of `calculateSnapAngle`, as enum variants, in the source's order. -/
def possibleAngles : List Direction :=
  [.EAST, .SOUTHEAST, .SOUTH, .SOUTHWEST, .WEST, .NORTHWEST, .NORTH, .NORTHEAST]

/-- The same candidate list as raw numeric angles. -/
def possibleAnglesQ : List ℚ := [0, 45, 90, 135, 180, 225, 270, 315]

/-- One iteration of the snapping loop of `calculateSnapAngle`
(lines 86–92): keep the candidate with the strictly smaller wrapped
distance to the raw angle, first candidate winning ties.  The accumulator
is the pair `(snappedAngle, minDiff)` of the source. -/
def snapStep (raw : ℚ) (acc : ℚ × ℚ) (c : ℚ) : ℚ × ℚ :=
  if |angleDifference raw c| < acc.2 then (c, |angleDifference raw c|) else acc

/-- The snapping loop of `calculateSnapAngle` (lines 81–94) as a function of
the raw angle computed on line 78: initial best `possibleAngles[0] = 0` with
`minDiff = |angleDifference raw 0|`, then one `snapStep` per candidate. -/
def snapLoop (raw : ℚ) : ℚ :=
  (possibleAnglesQ.foldl (snapStep raw) (0, |angleDifference raw 0|)).1

/-- Dot product of an integer vector with a direction's vector. -/
def dirDot (dx dy : ℤ) (d : Direction) : ℤ :=
  dx * (DIRECTION_VECTORS d).1 + dy * (DIRECTION_VECTORS d).2

/-- Squared norm of a direction's vector (1 for axis directions, 2 for
diagonals). -/
def dirNormSq (d : Direction) : ℤ :=
  (DIRECTION_VECTORS d).1 ^ 2 + (DIRECTION_VECTORS d).2 ^ 2

/-- Exact decision of `p·√a > q·√b` for integers `p`, `q` and positive
integers `a`, `b`: compare signs, then squares. -/
def sqrtCmpGt (p a q b : ℤ) : Bool :=
  if 0 ≤ p then
    if 0 ≤ q then decide (q ^ 2 * b < p ^ 2 * a) else true
  else
    if 0 ≤ q then false else decide (p ^ 2 * a < q ^ 2 * b)

/-- `closerDir dx dy c best` decides whether candidate `c` is strictly closer
(in wrapped angular distance to `atan2(dy,dx)`) than `best`, i.e. whether the
cosine score `(v·u_c)/|u_c|` strictly exceeds `(v·u_best)/|u_best|`:
`p/√a > q/√b ↔ p·√b > q·√a`. -/
def closerDir (dx dy : ℤ) (c best : Direction) : Bool :=
  sqrtCmpGt (dirDot dx dy c) (dirNormSq best) (dirDot dx dy best) (dirNormSq c)

/-- The snapping loop of `calculateSnapAngle` on an integer input vector
(dx, dy): exact-arithmetic form of lines 78–94 of `LinePath.ts` (see the
header comment; ties cannot occur on integer vectors). -/
def snapVec (dx dy : ℤ) : Direction :=
  possibleAngles.foldl (fun best c => if closerDir dx dy c best then c else best) .EAST

/-- `calculateSnapAngle` (lines 73–95): snap the direction of the vector
from `from` to `to` to the nearest of the 8 canonical directions. -/
def calculateSnapAngle (f t : Station) : Direction :=
  snapVec (t.vertexX - f.vertexX) (t.vertexY - f.vertexY)

/-! ## The router -/

/-- `solveLineIntersection` (lines 100–127): parametric 2D line
intersection with an epsilon test for parallel lines and a minimum-parameter
("bend ahead of the from station") test. -/
def solveLineIntersection (x1 y1 dx1 dy1 x2 y2 dx2 dy2 : ℚ) : Option (ℚ × ℚ) :=
  let denominator := dx1 * dy2 - dy1 * dx2
  if |denominator| < 1 / 10000 then
    none
  else
    let t1 := ((x2 - x1) * dy2 - (y2 - y1) * dx2) / denominator
    if t1 < 1 / 2 then
      none
    else
      some (x1 + t1 * dx1, y1 + t1 * dy1)

/-- Position of a station as a rational point. -/
def stationPos (s : Station) : ℚ × ℚ :=
  ((s.vertexX : ℚ), (s.vertexY : ℚ))

/-- Squared Euclidean distance between two rational points. -/
def distSq (a b : ℚ × ℚ) : ℚ :=
  (a.1 - b.1) ^ 2 + (a.2 - b.2) ^ 2

/-- Exact decision of `√p + √q < 2·√c` for nonnegative rationals, the
`Math.hypot` comparison `distToFrom + distToTo < directDist * 2` of
`calculateOptimalBendPosition` (line 169) on squared distances. -/
def hypotSumLtTwice (p q c : ℚ) : Prop :=
  0 < 4 * c - p - q ∧ 4 * (p * q) < (4 * c - p - q) ^ 2

instance (p q c : ℚ) : Decidable (hypotSumLtTwice p q c) := by
  unfold hypotSumLtTwice; exact instDecidableAnd

/-- Midpoint of two stations (the fallback bend of lines 174–178). -/
def midpointOf (f t : Station) : ℚ × ℚ :=
  (((f.vertexX : ℚ) + (t.vertexX : ℚ)) / 2, ((f.vertexY : ℚ) + (t.vertexY : ℚ)) / 2)

/-- `calculateOptimalBendPosition` (lines 132–179): intersect the ray from
`from` along `angle1` with the backward ray from `to` along `angle2`; use the
intersection if it exists and the resulting path is not unreasonably long,
else fall back to the midpoint. -/
def calculateOptimalBendPosition (f t : Station) (angle1 angle2 : Direction) : ℚ × ℚ :=
  let dir1 := DIRECTION_VECTORS angle1
  let dir2 := DIRECTION_VECTORS angle2
  match solveLineIntersection (f.vertexX : ℚ) (f.vertexY : ℚ) (dir1.1 : ℚ) (dir1.2 : ℚ)
      (t.vertexX : ℚ) (t.vertexY : ℚ) (-(dir2.1 : ℚ)) (-(dir2.2 : ℚ)) with
  | some intersection =>
      if hypotSumLtTwice (distSq intersection (stationPos f))
          (distSq intersection (stationPos t))
          (distSq (stationPos t) (stationPos f)) then
        intersection
      else
        midpointOf f t
  | none => midpointOf f t

/-- `generateWaypoints` (lines 184–236): straight 2-waypoint segment when the
entry angle equals the target angle, otherwise a single bend waypoint between
the two stations. -/
def generateWaypoints (f t : Station) (entryAngle targetAngle : Direction) : List Waypoint :=
  if entryAngle = targetAngle then
    [{ x := (f.vertexX : ℚ), y := (f.vertexY : ℚ), type := .STATION,
       outgoingAngle := some entryAngle },
     { x := (t.vertexX : ℚ), y := (t.vertexY : ℚ), type := .STATION,
       incomingAngle := some targetAngle }]
  else
    let bendPoint := calculateOptimalBendPosition f t entryAngle targetAngle
    [{ x := (f.vertexX : ℚ), y := (f.vertexY : ℚ), type := .STATION,
       outgoingAngle := some entryAngle },
     { x := bendPoint.1, y := bendPoint.2, type := .BEND,
       incomingAngle := some entryAngle, outgoingAngle := some targetAngle },
     { x := (t.vertexX : ℚ), y := (t.vertexY : ℚ), type := .STATION,
       incomingAngle := some targetAngle }]

/-- `calculateSegmentPath` (lines 241–265), the router's `routeSegment`:
snap the direct angle, default the entry angle to it when no previous angle
is given (`previousAngle ?? directAngle`), generate waypoints, and report the
direct angle as exit angle. -/
def calculateSegmentPath (f t : Station) (previousAngle : Option Direction) : LineSegment :=
  let directAngle := calculateSnapAngle f t
  let entryAngle := previousAngle.getD directAngle
  let waypoints := generateWaypoints f t entryAngle directAngle
  { fromStation := f, toStation := t, entryAngle := entryAngle,
    exitAngle := directAngle, waypoints := waypoints }

/-! ## The fillet generator

From the repository's Harry Beck line-rendering document
(`calculateCornerRadius`, `createBendCurve`): bezier-curve data for rounding
a bend waypoint.  The angle arguments are `Direction` enum values; their
numeric values enter the radius formula. -/

/-- `BendRenderConfig` of the rendering document. -/
structure BendRenderConfig where
  lineWidth : ℚ
  cornerRadius : ℚ
  tightness : ℚ
deriving DecidableEq, Repr

/-- A cubic bezier curve (`start`, two control points, end point). -/
structure BezierCurve where
  start : ℚ × ℚ
  control1 : ℚ × ℚ
  control2 : ℚ × ℚ
  endPt : ℚ × ℚ
deriving DecidableEq, Repr

/-- `calculateCornerRadius(lineWidth, angleDiff)` (document lines 336–345):
`baseRadius * (1 + (|angleDiff| / 90) * 0.5)` with `baseRadius = lineWidth * 2`.
Note the argument is used unnormalized. -/
def calculateCornerRadius (lineWidth angleDiff : ℚ) : ℚ :=
  let baseRadius := lineWidth * 2
  let angleFactor := |angleDiff| / 90
  baseRadius * (1 + angleFactor * (1 / 2))

/-- `createBendCurve(waypoint, incomingAngle, outgoingAngle, config)`
(document lines 357–397): trim points at `radius` along the incoming and
outgoing direction vectors, control points at `radius * tightness` inside.
The radius is `calculateCornerRadius` of the *raw* enum difference
`outgoingAngle - incomingAngle`. -/
def createBendCurve (waypoint : Waypoint) (incomingAngle outgoingAngle : Direction)
    (config : BendRenderConfig) : BezierCurve :=
  let radius := calculateCornerRadius config.lineWidth
    (outgoingAngle.deg - incomingAngle.deg)
  let inDir := DIRECTION_VECTORS incomingAngle
  let curveStart := (waypoint.x - radius * (inDir.1 : ℚ), waypoint.y - radius * (inDir.2 : ℚ))
  let outDir := DIRECTION_VECTORS outgoingAngle
  let curveEnd := (waypoint.x + radius * (outDir.1 : ℚ), waypoint.y + radius * (outDir.2 : ℚ))
  let controlDistance := radius * config.tightness
  { start := curveStart,
    control1 := (curveStart.1 + controlDistance * (inDir.1 : ℚ),
                 curveStart.2 + controlDistance * (inDir.2 : ℚ)),
    control2 := (curveEnd.1 - controlDistance * (outDir.1 : ℚ),
                 curveEnd.2 - controlDistance * (outDir.2 : ℚ)),
    endPt := curveEnd }

/-! ## Basic facts about the router

Concrete evaluations in this part proceed by kernel reduction; the Batteries
rational-arithmetic operations are restored to their default reducibility
inside this section so that `decide` can evaluate them. -/

section

attribute [local semireducible] Rat.mul Rat.add Rat.sub Rat.inv

/-- Snapping the zero vector gives EAST (`atan2(0,0) = 0` in the source). -/
theorem snapVec_zero : snapVec 0 0 = .EAST := by decide

/-- Snapping is a function of the coordinate differences only. -/
theorem calculateSnapAngle_eq_snapVec (f t : Station) :
    calculateSnapAngle f t = snapVec (t.vertexX - f.vertexX) (t.vertexY - f.vertexY) := rfl

/-- For every pair of distinct directions the normalized enum-value delta is
±45°, ±90°, ±135° or 180°. -/
theorem normalizedDelta_mem (i o : Direction) (h : i ≠ o) :
    normalizedDelta (o.deg - i.deg) ∈ ([45, 90, 135, 180, -45, -90, -135] : List ℚ) := by
  cases i <;> cases o <;> first | exact absurd rfl h | decide

/-- Claim C10 (confirmed): the angle snapper is translation-invariant — for
every pair of stations and every translation vector, translating both inputs
by the same vector leaves `calculateSnapAngle` unchanged, because the snapped
direction depends only on the coordinate differences. -/
theorem C10_snap_translation_invariant (a b : Station) (vx vy : ℤ) :
    calculateSnapAngle ⟨a.vertexX + vx, a.vertexY + vy⟩ ⟨b.vertexX + vx, b.vertexY + vy⟩ =
      calculateSnapAngle a b := by
  show snapVec _ _ = snapVec _ _
  congr 1 <;> ring

/-- Claim C1, counterexample: for the identical input points (0,0), (0,0) the
router does not fail — `calculateSegmentPath` (which contains no exception
path anywhere; `DegenerateInputError` does not occur in the repository)
returns a degenerate two-waypoint segment, refuting "for identical input
points it fails with DegenerateInputError rather than returning a result". -/
theorem C1_cex :
    calculateSegmentPath ⟨0, 0⟩ ⟨0, 0⟩ none =
      { fromStation := ⟨0, 0⟩, toStation := ⟨0, 0⟩,
        entryAngle := .EAST, exitAngle := .EAST,
        waypoints := [⟨0, 0, .STATION, none, some .EAST⟩,
                      ⟨0, 0, .STATION, some .EAST, none⟩] } := by decide

/-- Claim C1 (corrected): `calculateSegmentPath` never raises for any input;
in particular for identical input points with no entry constraint it returns
a degenerate straight two-waypoint segment with entry and exit angle EAST
(the snap of the zero vector), rather than raising `DegenerateInputError`. -/
theorem C1_total_no_error (p : Station) :
    calculateSegmentPath p p none =
      { fromStation := p, toStation := p,
        entryAngle := .EAST, exitAngle := .EAST,
        waypoints := [⟨(p.vertexX : ℚ), (p.vertexY : ℚ), .STATION, none, some .EAST⟩,
                      ⟨(p.vertexX : ℚ), (p.vertexY : ℚ), .STATION, some .EAST, none⟩] } := by
  have h : calculateSnapAngle p p = .EAST := by
    rw [calculateSnapAngle_eq_snapVec, sub_self, sub_self, snapVec_zero]
  simp [calculateSegmentPath, generateWaypoints, h]

/-- Claim C2, counterexample: for stations (0,0) → (10,0) with forced entry
direction WEST, the router emits a single BEND whose normalized turning angle
(outgoing 0° minus incoming 180°, normalized to (-180°,180°]) is 180° — not
one of ±45°, ±90° — and no decomposition into multiple knees happens. -/
theorem C2_cex :
    (calculateSegmentPath ⟨0, 0⟩ ⟨10, 0⟩ (some .WEST)).waypoints =
      [⟨0, 0, .STATION, none, some .WEST⟩,
       ⟨5, 0, .BEND, some .WEST, some .EAST⟩,
       ⟨10, 0, .STATION, some .EAST, none⟩] ∧
    normalizedDelta (Direction.deg .EAST - Direction.deg .WEST) = 180 ∧
    (180 : ℚ) ∉ ([45, 90, -45, -90] : List ℚ) := by decide

/-- Claim C2 (corrected): a routed segment contains at most one BEND waypoint
(turns are never decomposed into several knees); when the entry angle differs
from the direct angle the single emitted BEND carries those two distinct
directions, and its normalized turning angle `normalizedDelta(outgoing -
incoming)` is one of ±45°, ±90°, ±135° or 180° — values beyond ±90° are
emitted as a single knee rather than being split. -/
theorem C2_single_bend_turns (f t : Station) (prev : Option Direction) :
    ((calculateSegmentPath f t prev).waypoints.filter
        (fun w => w.type == WaypointType.BEND)).length ≤ 1 ∧
    ∀ w ∈ (calculateSegmentPath f t prev).waypoints, w.type = WaypointType.BEND →
      ∃ i o, w.incomingAngle = some i ∧ w.outgoingAngle = some o ∧ i ≠ o ∧
        normalizedDelta (o.deg - i.deg) ∈ ([45, 90, 135, 180, -45, -90, -135] : List ℚ) := by
  by_cases hh : (prev.getD (calculateSnapAngle f t)) = calculateSnapAngle f t
  · constructor
    · simp [calculateSegmentPath, generateWaypoints, hh]
    · intro w hw htype
      simp [calculateSegmentPath, generateWaypoints, hh] at hw
      rcases hw with h1 | h1 <;> rw [h1] at htype <;> simp at htype
  · constructor
    · simp [calculateSegmentPath, generateWaypoints, hh]
    · intro w hw htype
      simp [calculateSegmentPath, generateWaypoints, hh] at hw
      rcases hw with h1 | h1 | h1
      · rw [h1] at htype; simp at htype
      · refine ⟨prev.getD (calculateSnapAngle f t), calculateSnapAngle f t, ?_, ?_, hh, ?_⟩
        · rw [h1]
        · rw [h1]
        · exact normalizedDelta_mem _ _ hh
      · rw [h1] at htype; simp at htype

/-- Witness for C2: the single-bend/turn-classification theorem applied to the
concrete routed segment (0,0) → (10,0) with forced WEST entry, at its BEND
waypoint. -/
theorem C2_witness :
    ∃ i o, (Waypoint.mk 5 0 .BEND (some .WEST) (some .EAST)).incomingAngle = some i ∧
      (Waypoint.mk 5 0 .BEND (some .WEST) (some .EAST)).outgoingAngle = some o ∧ i ≠ o ∧
      normalizedDelta (o.deg - i.deg) ∈ ([45, 90, 135, 180, -45, -90, -135] : List ℚ) :=
  (C2_single_bend_turns ⟨0, 0⟩ ⟨10, 0⟩ (some .WEST)).2
    ⟨5, 0, .BEND, some .WEST, some .EAST⟩ (by decide) (by decide)

/-- Claim C3 (confirmed): for every pair of distinct vertically, horizontally
or diagonally aligned points, `calculateSegmentPath` with no entry constraint
returns exactly 2 waypoints, both STATION (no BEND); in particular for
A=(0,0), B=(0,5) the result is a straight 2-waypoint segment with direction
SOUTH throughout. -/
theorem C3_alignment (f t : Station) (hne : f ≠ t)
    (halign : f.vertexX = t.vertexX ∨ f.vertexY = t.vertexY ∨
      (t.vertexX - f.vertexX).natAbs = (t.vertexY - f.vertexY).natAbs) :
    ((calculateSegmentPath f t none).waypoints.length = 2 ∧
      ∀ w ∈ (calculateSegmentPath f t none).waypoints, w.type = WaypointType.STATION) ∧
    calculateSegmentPath ⟨0, 0⟩ ⟨0, 5⟩ none =
      { fromStation := ⟨0, 0⟩, toStation := ⟨0, 5⟩,
        entryAngle := .SOUTH, exitAngle := .SOUTH,
        waypoints := [⟨0, 0, .STATION, none, some .SOUTH⟩,
                      ⟨0, 5, .STATION, some .SOUTH, none⟩] } := by
  refine ⟨⟨?_, ?_⟩, by decide⟩
  · simp [calculateSegmentPath, generateWaypoints]
  · intro w hw
    simp [calculateSegmentPath, generateWaypoints] at hw
    rcases hw with h1 | h1 <;> rw [h1]

/-- Witness for C3: the alignment theorem applied to the concrete diagonally
aligned pair (0,0), (3,3). -/
theorem C3_witness :
    (calculateSegmentPath ⟨0, 0⟩ ⟨3, 3⟩ none).waypoints.length = 2 :=
  (C3_alignment ⟨0, 0⟩ ⟨3, 3⟩ (by decide) (by decide)).1.1

/-- Claim C4: evaluation of the router at the failing input A=(0,10),
B=(14,14) with no entry constraint.  The code returns a straight 2-waypoint
segment labelled EAST (the raw angle ≈ 15.9° snaps to EAST) with no BEND at
all, while the claim — backed by the repository's own worked example, which
travels the shorter delta diagonally then straight — requires 2 STATION
waypoints plus a BEND at (4,14) with directions SOUTHEAST then EAST. -/
theorem C4_failing_eval :
    calculateSegmentPath ⟨0, 10⟩ ⟨14, 14⟩ none =
      { fromStation := ⟨0, 10⟩, toStation := ⟨14, 14⟩,
        entryAngle := .EAST, exitAngle := .EAST,
        waypoints := [⟨0, 10, .STATION, none, some .EAST⟩,
                      ⟨14, 14, .STATION, some .EAST, none⟩] } := by decide

/-- Claim C9: evaluation of the router at the failing input (0,10) → (14,14)
(no entry constraint).  The returned segment does start at `from` and end at
`to`, but its two consecutive waypoints are NOT colinear along the recorded
direction: the displacement (14,4) has nonzero cross product with the EAST
direction vector recorded as the first waypoint's outgoing direction. -/
theorem C9_failing_eval :
    (calculateSegmentPath ⟨0, 10⟩ ⟨14, 14⟩ none).waypoints =
      [⟨0, 10, .STATION, none, some .EAST⟩, ⟨14, 14, .STATION, some .EAST, none⟩] ∧
    ((14 : ℚ) - 0) * ((DIRECTION_VECTORS .EAST).2 : ℚ) -
      ((14 : ℚ) - 10) * ((DIRECTION_VECTORS .EAST).1 : ℚ) ≠ 0 := by decide

/-- Claim C7, counterexample: `createBendCurve` computes the corner radius
from the RAW enum difference `outgoing - incoming`, not from the normalized
turn.  For a bend from incoming NORTHEAST (315) to outgoing EAST (0) with
lineWidth 2 the used radius is 2·2·(1+(315/90)·0.5) = 11 (visible in the trim
start point (-11,11)), while the claimed formula with the normalized 45° turn
gives 2·2·(1+(45/90)·0.5) = 5 — so this 45° turn does NOT get the same
effective radius as other 45° turns. -/
theorem C7_cex :
    (createBendCurve ⟨0, 0, .BEND, some .NORTHEAST, some .EAST⟩ .NORTHEAST .EAST
        ⟨2, 0, 1/2⟩).start = (-11, 11) ∧
    (2 : ℚ) * 2 * (1 + (|normalizedDelta (Direction.deg .EAST - Direction.deg .NORTHEAST)| / 90)
      * (1/2)) = 5 ∧
    ((-11 : ℚ), (11 : ℚ)) ≠ ((0 : ℚ) - 5 * 1, (0 : ℚ) - 5 * (-1)) := by decide

/-- Claim C7 (corrected): for every BEND handed to the fillet generator the
effective corner radius equals `lineWidth · 2 · (1 + (|outgoing − incoming| /
90°) · 0.5)` computed from the RAW enum-value difference, not the normalized
turn; consequently a bend from NORTHEAST (315°) to EAST (0°) gets radius
factor 2.75 (radius 11 at lineWidth 2) while a bend from EAST to SOUTHEAST —
the same 45° turn after normalization — gets factor 1.25 (radius 5). -/
theorem C7_raw_difference_radius (w : Waypoint) (i o : Direction) (cfg : BendRenderConfig) :
    ((createBendCurve w i o cfg).start =
        (w.x - (cfg.lineWidth * 2 * (1 + (|Direction.deg o - Direction.deg i| / 90) * (1/2)))
            * ((DIRECTION_VECTORS i).1 : ℚ),
         w.y - (cfg.lineWidth * 2 * (1 + (|Direction.deg o - Direction.deg i| / 90) * (1/2)))
            * ((DIRECTION_VECTORS i).2 : ℚ)) ∧
      (createBendCurve w i o cfg).endPt =
        (w.x + (cfg.lineWidth * 2 * (1 + (|Direction.deg o - Direction.deg i| / 90) * (1/2)))
            * ((DIRECTION_VECTORS o).1 : ℚ),
         w.y + (cfg.lineWidth * 2 * (1 + (|Direction.deg o - Direction.deg i| / 90) * (1/2)))
            * ((DIRECTION_VECTORS o).2 : ℚ))) ∧
    calculateCornerRadius 2 (Direction.deg .EAST - Direction.deg .NORTHEAST) = 11 ∧
    calculateCornerRadius 2 (Direction.deg .SOUTHEAST - Direction.deg .EAST) = 5 := by
  refine ⟨⟨?_, ?_⟩, by decide, by decide⟩ <;>
    simp [createBendCurve, calculateCornerRadius]

/-- Claim C8: evaluation of the fillet generator at the failing input — a
BEND at (1,0) between stations (0,0) and (1,1) (both adjoining segments have
length 1) with lineWidth 3.  The effective radius is 9, exceeding half the
shorter adjoining segment length (1/2); no clamping exists in the code, and
the trim start point (-8,0) lies far beyond the segment's other endpoint. -/
theorem C8_failing_eval :
    calculateCornerRadius 3 (Direction.deg .SOUTH - Direction.deg .EAST) = 9 ∧
    distSq (1, 0) (0, 0) = 1 ∧ distSq (1, 1) (1, 0) = 1 ∧
    ¬ ((9 : ℚ) ≤ (1/2) * 1) ∧
    (createBendCurve ⟨1, 0, .BEND, some .EAST, some .SOUTH⟩ .EAST .SOUTH
        ⟨3, 0, 1/2⟩).start = (-8, 0) := by decide

/-! ## The snapping loop: nearest direction and tie-breaking (claim C5) -/

/-- The first wrapping loop only ever lands at or below 180. -/
theorem reduceDown_le (d : ℚ) : reduceDown d ≤ 180 := by
  induction d using reduceDown.induct with
  | case1 d h ih => rw [reduceDown]; simpa [h] using ih
  | case2 d h => rw [reduceDown]; simpa [h] using not_lt.mp h

/-- The first wrapping loop subtracts a whole number of turns. -/
theorem reduceDown_sub (d : ℚ) : ∃ k : ℤ, reduceDown d = d - 360 * k := by
  induction d using reduceDown.induct with
  | case1 d h ih =>
    obtain ⟨k, hk⟩ := ih
    refine ⟨k + 1, ?_⟩
    rw [reduceDown]
    simp only [h, dif_pos]
    rw [hk]; push_cast; ring
  | case2 d h =>
    refine ⟨0, ?_⟩
    rw [reduceDown]
    simp [h]

/-- The second wrapping loop only ever lands at or above -180. -/
theorem reduceUp_ge (d : ℚ) : -180 ≤ reduceUp d := by
  induction d using reduceUp.induct with
  | case1 d h ih => rw [reduceUp]; simpa [h] using ih
  | case2 d h => rw [reduceUp]; simpa [h] using not_lt.mp h

/-- The second wrapping loop preserves an upper bound of 180. -/
theorem reduceUp_le (d : ℚ) : d ≤ 180 → reduceUp d ≤ 180 := by
  induction d using reduceUp.induct with
  | case1 d h ih =>
    intro _
    rw [reduceUp]
    simpa [h] using ih (by linarith)
  | case2 d h =>
    intro hd
    rw [reduceUp]
    simpa [h] using hd

/-- The second wrapping loop adds a whole number of turns. -/
theorem reduceUp_sub (d : ℚ) : ∃ k : ℤ, reduceUp d = d - 360 * k := by
  induction d using reduceUp.induct with
  | case1 d h ih =>
    obtain ⟨k, hk⟩ := ih
    refine ⟨k - 1, ?_⟩
    rw [reduceUp]
    simp only [h, dif_pos]
    rw [hk]; push_cast; ring
  | case2 d h =>
    refine ⟨0, ?_⟩
    rw [reduceUp]
    simp [h]

/-- `angleDifference` lands in [-180, 180]. -/
theorem angleDifference_bounds (a b : ℚ) :
    -180 ≤ angleDifference a b ∧ angleDifference a b ≤ 180 :=
  ⟨reduceUp_ge _, reduceUp_le _ (reduceDown_le _)⟩

/-- `angleDifference a b` is `a - b` shifted by a whole number of turns:
`|angleDifference a b|` is the wrapped angular distance between `a` and `b`. -/
theorem angleDifference_congruent (a b : ℚ) :
    ∃ k : ℤ, angleDifference a b = a - b - 360 * k := by
  obtain ⟨k1, hk1⟩ := reduceDown_sub (a - b)
  obtain ⟨k2, hk2⟩ := reduceUp_sub (reduceDown (a - b))
  refine ⟨k1 + k2, ?_⟩
  rw [angleDifference, hk2, hk1]
  push_cast; ring

/-- Concrete evaluation rule for `angleDifference`: the wrapped difference is
the unique representative of `a - b` modulo 360 strictly inside (-180, 180)
(all values needed below are strictly inside). -/
theorem angleDifference_eval (a b x : ℚ) (k : ℤ) (h1 : -180 < x) (h2 : x < 180)
    (hk : a - b - 360 * k = x) : angleDifference a b = x := by
  obtain ⟨k', hk'⟩ := angleDifference_congruent a b
  obtain ⟨hg, hl⟩ := angleDifference_bounds a b
  have hdiff : angleDifference a b - x = 360 * ((k : ℚ) - (k' : ℚ)) := by
    rw [hk']
    rw [show a - b - 360 * (k' : ℚ) - x = (a - b - 360 * k - x) + 360 * ((k:ℚ) - (k':ℚ)) by ring]
    rw [hk]
    ring
  have hkk : k = k' := by
    by_contra hne
    have hz : k - k' ≠ 0 := sub_ne_zero.mpr hne
    have hone : (1 : ℚ) ≤ |(k : ℚ) - (k' : ℚ)| := by
      exact_mod_cast Int.one_le_abs hz
    have habs : |angleDifference a b - x| < 360 := by
      rw [abs_lt]; constructor <;> linarith
    rw [hdiff, abs_mul, abs_of_pos (by norm_num : (0:ℚ) < 360)] at habs
    linarith
  rw [hkk] at hdiff
  have : angleDifference a b - x = 0 := by rw [hdiff]; ring
  linarith

/-- Invariant of the snapping loop of `calculateSnapAngle`: folding
`snapStep` over a sorted candidate list starting from its head yields a pair
`(best, minDiff)` such that `minDiff` is the wrapped distance of `best`, and
`best` is a candidate of minimal wrapped distance — the first such candidate,
hence the least-valued one on a sorted list. -/
theorem snapFold_spec (raw : ℚ) (L : List ℚ) : ∀ (b : ℚ),
    List.Sorted (· ≤ ·) (b :: L) →
    ((L.foldl (snapStep raw) (b, |angleDifference raw b|)).2 =
        |angleDifference raw (L.foldl (snapStep raw) (b, |angleDifference raw b|)).1|) ∧
    (L.foldl (snapStep raw) (b, |angleDifference raw b|)).1 ∈ b :: L ∧
    (∀ d ∈ b :: L, (L.foldl (snapStep raw) (b, |angleDifference raw b|)).2 ≤
      |angleDifference raw d|) ∧
    (∀ d ∈ b :: L, (L.foldl (snapStep raw) (b, |angleDifference raw b|)).2 =
      |angleDifference raw d| → (L.foldl (snapStep raw) (b, |angleDifference raw b|)).1 ≤ d) := by
  induction L with
  | nil =>
    intro b _
    refine ⟨rfl, by simp, ?_, ?_⟩ <;> simp
  | cons c L' ih =>
    intro b hs
    rw [List.sorted_cons] at hs
    by_cases h : |angleDifference raw c| < |angleDifference raw b|
    · have hstep : snapStep raw (b, |angleDifference raw b|) c =
          (c, |angleDifference raw c|) := by
        simp [snapStep, h]
      rw [List.foldl_cons, hstep]
      obtain ⟨A, B, C, D⟩ := ih c (List.sorted_cons.mpr ⟨(List.sorted_cons.mp hs.2).1,
        (List.sorted_cons.mp hs.2).2⟩)
      refine ⟨A, List.mem_cons_of_mem b B, ?_, ?_⟩
      · intro d hd
        rcases List.mem_cons.mp hd with rfl | hd'
        · have := C c (by simp)
          linarith
        · exact C d hd'
      · intro d hd heq
        rcases List.mem_cons.mp hd with rfl | hd'
        · exfalso
          have := C c (by simp)
          linarith
        · exact D d hd' heq
    · have hstep : snapStep raw (b, |angleDifference raw b|) c =
          (b, |angleDifference raw b|) := by
        simp [snapStep, h]
      rw [List.foldl_cons, hstep]
      have hs' : List.Sorted (· ≤ ·) (b :: L') := by
        rw [List.sorted_cons]
        exact ⟨fun x hx => hs.1 x (List.mem_cons_of_mem c hx), (List.sorted_cons.mp hs.2).2⟩
      obtain ⟨A, B, C, D⟩ := ih b hs'
      have hbc : b ≤ c := hs.1 c (by simp)
      have hcb : |angleDifference raw b| ≤ |angleDifference raw c| := not_lt.mp h
      refine ⟨A, ?_, ?_, ?_⟩
      · rcases List.mem_cons.mp B with h1 | hB
        · exact List.mem_cons.mpr (Or.inl h1)
        · exact List.mem_cons.mpr (Or.inr (List.mem_cons_of_mem _ hB))
      · intro d hd
        rcases List.mem_cons.mp hd with rfl | hd'
        · exact C d (by simp)
        rcases List.mem_cons.mp hd' with rfl | hd''
        · have := C b (by simp)
          linarith
        · exact C d (List.mem_cons_of_mem _ hd'')
      · intro d hd heq
        rcases List.mem_cons.mp hd with rfl | hd'
        · exact D d (by simp) heq
        rcases List.mem_cons.mp hd' with rfl | hd''
        · have hCb := C b (by simp)
          have hr2 : (L'.foldl (snapStep raw) (b, |angleDifference raw b|)).2 =
              |angleDifference raw b| := le_antisymm hCb (by linarith)
          exact (D b (by simp) hr2).trans hbc
        · exact D d (List.mem_cons_of_mem _ hd'') heq

/-- Claim C5 (confirmed): the snapping loop of the angle snapper maps every
raw angle to a candidate among the 8 canonical directions whose wrapped
angular distance (the source's `|angleDifference|`, which lies in [-180,180]
and differs from the plain difference by a whole number of turns — wraparound
at ±180°) is minimal, and whenever several candidates are at minimal distance
(a tie, e.g. a raw angle exactly 22.5° from two canonical directions) the
result is the lowest-valued of the tied candidates. -/
theorem C5_snap_nearest (raw : ℚ) :
    snapLoop raw ∈ possibleAnglesQ ∧
    (∀ c ∈ possibleAnglesQ,
      (-180 ≤ angleDifference raw c ∧ angleDifference raw c ≤ 180) ∧
      ∃ k : ℤ, angleDifference raw c = raw - c - 360 * k) ∧
    (∀ c ∈ possibleAnglesQ, |angleDifference raw (snapLoop raw)| ≤ |angleDifference raw c|) ∧
    (∀ c ∈ possibleAnglesQ, |angleDifference raw c| = |angleDifference raw (snapLoop raw)| →
      snapLoop raw ≤ c) := by
  have hsorted : List.Sorted (· ≤ ·) ((0 : ℚ) :: possibleAnglesQ) := by
    norm_num [possibleAnglesQ, List.sorted_cons]
  obtain ⟨A, B, C, D⟩ := snapFold_spec raw possibleAnglesQ 0 hsorted
  have hmem : snapLoop raw ∈ possibleAnglesQ := by
    rcases List.mem_cons.mp B with h0 | h
    · rw [snapLoop, h0]; norm_num [possibleAnglesQ]
    · exact h
  refine ⟨hmem, ?_, ?_, ?_⟩
  · intro c _
    exact ⟨angleDifference_bounds raw c, angleDifference_congruent raw c⟩
  · intro c hc
    have := C c (List.mem_cons_of_mem _ hc)
    rw [A] at this
    exact this
  · intro c hc heq
    have hA : |angleDifference raw c| =
        (possibleAnglesQ.foldl (snapStep raw) (0, |angleDifference raw 0|)).2 := by
      rw [A]; exact heq
    exact D c (List.mem_cons_of_mem _ hc) hA.symm

/-- Witness for C5: the raw angle 22.5° is exactly equidistant from the
candidates 0 and 45 (a tie), and the loop resolves it to the lower-valued
direction 0 — in particular the snapped result is at most 45. -/
theorem C5_witness :
    |angleDifference (45/2) 0| = |angleDifference (45/2) 45| ∧ snapLoop (45/2) ≤ 45 := by
  have h0 : angleDifference (45/2) 0 = 45/2 :=
    angleDifference_eval _ _ _ 0 (by norm_num) (by norm_num) (by norm_num)
  have h45 : angleDifference (45/2) 45 = -(45/2) :=
    angleDifference_eval _ _ _ 0 (by norm_num) (by norm_num) (by norm_num)
  have h90 : angleDifference (45/2) 90 = -(135/2) :=
    angleDifference_eval _ _ _ 0 (by norm_num) (by norm_num) (by norm_num)
  have h135 : angleDifference (45/2) 135 = -(225/2) :=
    angleDifference_eval _ _ _ 0 (by norm_num) (by norm_num) (by norm_num)
  have h180 : angleDifference (45/2) 180 = -(315/2) :=
    angleDifference_eval _ _ _ 0 (by norm_num) (by norm_num) (by norm_num)
  have h225 : angleDifference (45/2) 225 = 315/2 :=
    angleDifference_eval _ _ _ (-1) (by norm_num) (by norm_num) (by norm_num)
  have h270 : angleDifference (45/2) 270 = 225/2 :=
    angleDifference_eval _ _ _ (-1) (by norm_num) (by norm_num) (by norm_num)
  have h315 : angleDifference (45/2) 315 = 135/2 :=
    angleDifference_eval _ _ _ (-1) (by norm_num) (by norm_num) (by norm_num)
  have hloop : snapLoop (45/2) = 0 := by
    rw [snapLoop, possibleAnglesQ]
    simp only [List.foldl_cons, List.foldl_nil, snapStep, h0, h45, h90, h135, h180,
      h225, h270, h315]
    decide
  refine ⟨by rw [h0, h45]; decide, ?_⟩
  refine (C5_snap_nearest (45/2)).2.2.2 45 (by norm_num [possibleAnglesQ]) ?_
  rw [h45, hloop, h0]
  decide

/-! ## The bend-position fallback policy (claim C6) -/

/-- Squared distances are nonnegative. -/
theorem distSq_nonneg (a b : ℚ × ℚ) : 0 ≤ distSq a b := by
  unfold distSq; positivity

/-- Every direction vector has squared norm 1 or 2. -/
theorem dirNormSq_cases (d : Direction) : dirNormSq d = 1 ∨ dirNormSq d = 2 := by
  cases d <;> decide

/-- For any two directions whose rays are not parallel (nonzero intersection
determinant with the second direction negated, as the router calls the
solver), either one is an axis direction and the other a diagonal (product of
squared norms 2), or the two vectors are perpendicular. -/
theorem dirPair_cases (a1 a2 : Direction)
    (h : (DIRECTION_VECTORS a1).1 * (-(DIRECTION_VECTORS a2).2) -
         (DIRECTION_VECTORS a1).2 * (-(DIRECTION_VECTORS a2).1) ≠ 0) :
    dirNormSq a1 * dirNormSq a2 = 2 ∨
    (DIRECTION_VECTORS a1).1 * (-(DIRECTION_VECTORS a2).1) +
      (DIRECTION_VECTORS a1).2 * (-(DIRECTION_VECTORS a2).2) = 0 := by
  cases a1 <;> cases a2 <;> first | (exact absurd rfl h) | decide

/-- The parametric intersection point computed by `solveLineIntersection`
lies on the second line as well: with `t2` the symmetric parameter, the point
`(x1 + t1·dx1, y1 + t1·dy1)` equals `(x2 + t2·dx2, y2 + t2·dy2)`. -/
theorem lineIntersection_on_second (x1 y1 dx1 dy1 x2 y2 dx2 dy2 : ℚ)
    (hden : dx1 * dy2 - dy1 * dx2 ≠ 0) :
    x1 + (((x2 - x1) * dy2 - (y2 - y1) * dx2) / (dx1 * dy2 - dy1 * dx2)) * dx1 =
      x2 + (((x2 - x1) * dy1 - (y2 - y1) * dx1) / (dx1 * dy2 - dy1 * dx2)) * dx2 ∧
    y1 + (((x2 - x1) * dy2 - (y2 - y1) * dx2) / (dx1 * dy2 - dy1 * dx2)) * dy1 =
      y2 + (((x2 - x1) * dy1 - (y2 - y1) * dx1) / (dx1 * dy2 - dy1 * dx2)) * dy2 := by
  constructor <;> (field_simp; ring)

/-- The exact squared-form test `hypotSumLtTwice` decides the square-root
comparison `√p + √q < 2·√c` of the source's `Math.hypot` check. -/
theorem hypotSumLtTwice_iff (p q c : ℚ) (hp : 0 ≤ p) (hq : 0 ≤ q) (hc : 0 ≤ c) :
    hypotSumLtTwice p q c ↔
      Real.sqrt ((p : ℚ) : ℝ) + Real.sqrt ((q : ℚ) : ℝ) < 2 * Real.sqrt ((c : ℚ) : ℝ) := by
  have hpR : (0:ℝ) ≤ (p:ℝ) := by exact_mod_cast hp
  have hqR : (0:ℝ) ≤ (q:ℝ) := by exact_mod_cast hq
  have hcR : (0:ℝ) ≤ (c:ℝ) := by exact_mod_cast hc
  have ha2 : (Real.sqrt (p:ℝ))^2 = (p:ℝ) := Real.sq_sqrt hpR
  have hb2 : (Real.sqrt (q:ℝ))^2 = (q:ℝ) := Real.sq_sqrt hqR
  have hc2 : (Real.sqrt (c:ℝ))^2 = (c:ℝ) := Real.sq_sqrt hcR
  have hab : Real.sqrt (p:ℝ) * Real.sqrt (q:ℝ) = Real.sqrt ((p:ℝ) * (q:ℝ)) :=
    (Real.sqrt_mul hpR _).symm
  have hpqR : (0:ℝ) ≤ (p:ℝ) * (q:ℝ) := mul_nonneg hpR hqR
  constructor
  · rintro ⟨h1, h2⟩
    have h1R : (0:ℝ) < 4*(c:ℝ) - p - q := by exact_mod_cast h1
    have h2R : 4*((p:ℝ)*(q:ℝ)) < (4*(c:ℝ) - p - q)^2 := by exact_mod_cast h2
    have hsq : Real.sqrt ((p:ℝ)*(q:ℝ)) < (4*(c:ℝ) - p - q)/2 := by
      rw [Real.sqrt_lt' (by linarith)]
      nlinarith
    have h2ab : 2*(Real.sqrt (p:ℝ) * Real.sqrt (q:ℝ)) < 4*(c:ℝ) - p - q := by
      rw [hab]; linarith
    have hfin : (Real.sqrt (p:ℝ) + Real.sqrt (q:ℝ))^2 < (2*Real.sqrt (c:ℝ))^2 := by
      nlinarith
    exact lt_of_pow_lt_pow_left 2 (by positivity) hfin
  · intro h
    have hsq : (Real.sqrt (p:ℝ) + Real.sqrt (q:ℝ))^2 < (2*Real.sqrt (c:ℝ))^2 :=
      pow_lt_pow_left h (by positivity) (by norm_num)
    have h2ab : 2*(Real.sqrt (p:ℝ) * Real.sqrt (q:ℝ)) < 4*(c:ℝ) - p - q := by
      nlinarith
    have habnn : (0:ℝ) ≤ Real.sqrt (p:ℝ) * Real.sqrt (q:ℝ) := by positivity
    constructor
    · have : (0:ℝ) < 4*(c:ℝ) - p - q := by linarith
      exact_mod_cast this
    · have hs : Real.sqrt ((p:ℝ)*(q:ℝ)) < (4*(c:ℝ)-p-q)/2 := by
        rw [← hab]; linarith
      have hsqv : (Real.sqrt ((p:ℝ)*(q:ℝ)))^2 = (p:ℝ)*(q:ℝ) := Real.sq_sqrt hpqR
      have hlt : (p:ℝ)*(q:ℝ) < ((4*(c:ℝ)-p-q)/2)^2 := by
        nlinarith [Real.sqrt_nonneg ((p:ℝ)*(q:ℝ))]
      have : 4*((p:ℝ)*(q:ℝ)) < (4*(c:ℝ)-p-q)^2 := by nlinarith
      exact_mod_cast this

end

set_option maxHeartbeats 1000000 in
/-- No boundary tie in the doubling-back check: when the knee is the genuine
intersection of two non-parallel canonical rays with forward parameter at
least 1/2, the sum of leg lengths can never be exactly twice the direct
distance.  (For a mixed axis/diagonal pair the sum involves √2 times a
nonzero rational, which is irrational; for perpendicular pairs the equality
forces the legs to vanish by AM-GM.) -/
theorem sqrt_sum_ne_twice (n1 n2 dotp t1 w c : ℚ)
    (hn1 : n1 = 1 ∨ n1 = 2) (hn2 : n2 = 1 ∨ n2 = 2)
    (hcase : n1 * n2 = 2 ∨ dotp = 0)
    (ht : 1/2 ≤ t1)
    (hc : c = t1^2*n1 + w^2*n2 - 2*(t1*w)*dotp)
    (hcnn : 0 ≤ c) :
    Real.sqrt ((t1^2*n1 : ℚ) : ℝ) + Real.sqrt ((w^2*n2 : ℚ) : ℝ) ≠
      2 * Real.sqrt ((c : ℚ) : ℝ) := by
  intro E
  have hN1ge1 : (1:ℝ) ≤ (n1:ℝ) := by rcases hn1 with h | h <;> rw [h] <;> norm_num
  have hN2ge1 : (1:ℝ) ≤ (n2:ℝ) := by rcases hn2 with h | h <;> rw [h] <;> norm_num
  have hTge : (1/2:ℝ) ≤ (t1:ℝ) := by
    have h : ((1/2 : ℚ) : ℝ) ≤ ((t1 : ℚ) : ℝ) := Rat.cast_le.mpr ht
    push_cast at h
    linarith
  have hcnnR : (0:ℝ) ≤ (c:ℝ) := by exact_mod_cast hcnn
  have hpnn : (0:ℝ) ≤ (t1:ℝ)^2 * (n1:ℝ) := by positivity
  have hqnn : (0:ℝ) ≤ (w:ℝ)^2 * (n2:ℝ) := by positivity
  have hcast1 : ((t1^2*n1 : ℚ) : ℝ) = (t1:ℝ)^2 * (n1:ℝ) := by push_cast; ring
  have hcast2 : ((w^2*n2 : ℚ) : ℝ) = (w:ℝ)^2 * (n2:ℝ) := by push_cast; ring
  rw [hcast1, hcast2] at E
  set A : ℝ := Real.sqrt ((t1:ℝ)^2 * (n1:ℝ)) with hAdef
  set B : ℝ := Real.sqrt ((w:ℝ)^2 * (n2:ℝ)) with hBdef
  have hA2 : A^2 = (t1:ℝ)^2 * (n1:ℝ) := Real.sq_sqrt hpnn
  have hB2 : B^2 = (w:ℝ)^2 * (n2:ℝ) := Real.sq_sqrt hqnn
  have hCr : ((c:ℚ):ℝ) = (t1:ℝ)^2*(n1:ℝ) + (w:ℝ)^2*(n2:ℝ) -
      2*((t1:ℝ)*(w:ℝ))*(dotp:ℝ) := by
    rw [hc]; push_cast; ring
  have hsq : (A + B)^2 = 4*((c:ℝ)) := by
    rw [E, mul_pow, Real.sq_sqrt hcnnR]; ring
  have h2AB : 2*(A*B) = 3*((t1:ℝ)^2*(n1:ℝ)) + 3*((w:ℝ)^2*(n2:ℝ)) -
      8*((t1:ℝ)*(w:ℝ))*(dotp:ℝ) := by
    nlinarith [hsq, hA2, hB2, hCr]
  have hABval : A*B = |(t1:ℝ)*(w:ℝ)| * Real.sqrt ((n1:ℝ)*(n2:ℝ)) := by
    rw [hAdef, hBdef, ← Real.sqrt_mul hpnn]
    rw [show ((t1:ℝ)^2*(n1:ℝ))*((w:ℝ)^2*(n2:ℝ)) =
      ((t1:ℝ)*(w:ℝ))^2 * ((n1:ℝ)*(n2:ℝ)) by ring]
    rw [Real.sqrt_mul (sq_nonneg _), Real.sqrt_sq_eq_abs]
  have hTpos : (0:ℝ) < (t1:ℝ) := by linarith
  have hTN : (1/4:ℝ) ≤ (t1:ℝ)^2*(n1:ℝ) := by nlinarith
  rcases hcase with hmix | hdot0
  · have hNN : ((n1:ℝ))*((n2:ℝ)) = 2 := by exact_mod_cast hmix
    rw [hNN] at hABval
    by_cases hw : w = 0
    · rw [hw] at h2AB hABval
      push_cast at h2AB hABval
      simp only [ne_eq, OfNat.ofNat_ne_zero, not_false_eq_true, zero_pow, zero_mul,
        mul_zero, sub_zero, add_zero, Real.sqrt_zero, abs_zero] at h2AB hABval
      nlinarith [h2AB, hTN]
    · have ht10 : t1 ≠ 0 := by
        intro h0
        rw [h0] at ht
        norm_num at ht
      have htw : t1*w ≠ 0 := mul_ne_zero ht10 hw
      have hqabs : |t1*w| ≠ 0 := abs_ne_zero.mpr htw
      have hqne : (2*|t1*w| : ℚ) ≠ 0 := mul_ne_zero two_ne_zero hqabs
      have hirr : Irrational (((2*|t1*w| : ℚ) : ℝ) * Real.sqrt 2) :=
        irrational_sqrt_two.rat_mul hqne
      have heq : ((2*|t1*w| : ℚ) : ℝ) * Real.sqrt 2 =
          ((3*t1^2*n1 + 3*w^2*n2 - 8*(t1*w)*dotp : ℚ) : ℝ) := by
        push_cast
        rw [mul_assoc, ← hABval]
        linarith [h2AB]
      exact hirr ⟨_, heq.symm⟩
  · have hdotR : (dotp:ℝ) = 0 := by exact_mod_cast hdot0
    rw [hdotR] at h2AB
    have hge : 2*(A*B) ≤ (t1:ℝ)^2*(n1:ℝ) + (w:ℝ)^2*(n2:ℝ) := by
      nlinarith [sq_nonneg (A - B), hA2, hB2]
    have hABnn : 0 ≤ A*B := mul_nonneg (Real.sqrt_nonneg _) (Real.sqrt_nonneg _)
    nlinarith [h2AB, hge, hABnn, hTN, hqnn]

set_option maxHeartbeats 1000000 in
/-- Claim C6 (confirmed): in the single-knee case the emitted knee equals the
intersection of the ray from `from` along the entry angle with the backward
ray from `to` along the direct angle (the point `from + t1·dir1`), and the
midpoint of `from`/`to` is used instead exactly when the intersection
determinant is below the numeric epsilon 1/10000 (parallel rays), or the
forward-ray parameter `t1` is below the minimum threshold 1/2, or the sum of
Euclidean distances (from→knee) + (knee→to) exceeds twice the direct
distance between the stations. -/
theorem C6_bend_fallback (f t : Station) (a1 a2 : Direction) (den t1 : ℚ) (knee : ℚ × ℚ)
    (hden : den = ((DIRECTION_VECTORS a1).1 : ℚ) * (-((DIRECTION_VECTORS a2).2 : ℚ)) -
      ((DIRECTION_VECTORS a1).2 : ℚ) * (-((DIRECTION_VECTORS a2).1 : ℚ)))
    (ht1 : t1 = (((t.vertexX : ℚ) - (f.vertexX : ℚ)) * (-((DIRECTION_VECTORS a2).2 : ℚ)) -
      ((t.vertexY : ℚ) - (f.vertexY : ℚ)) * (-((DIRECTION_VECTORS a2).1 : ℚ))) / den)
    (hknee : knee = ((f.vertexX : ℚ) + t1 * ((DIRECTION_VECTORS a1).1 : ℚ),
      (f.vertexY : ℚ) + t1 * ((DIRECTION_VECTORS a1).2 : ℚ))) :
    (calculateOptimalBendPosition f t a1 a2 = midpointOf f t ↔
      (|den| < 1/10000 ∨ t1 < 1/2 ∨
        2 * Real.sqrt ((distSq (stationPos t) (stationPos f) : ℚ) : ℝ) <
          Real.sqrt ((distSq knee (stationPos f) : ℚ) : ℝ) +
          Real.sqrt ((distSq knee (stationPos t) : ℚ) : ℝ))) ∧
    (¬(|den| < 1/10000 ∨ t1 < 1/2 ∨
        2 * Real.sqrt ((distSq (stationPos t) (stationPos f) : ℚ) : ℝ) <
          Real.sqrt ((distSq knee (stationPos f) : ℚ) : ℝ) +
          Real.sqrt ((distSq knee (stationPos t) : ℚ) : ℝ)) →
      calculateOptimalBendPosition f t a1 a2 = knee) := by
  have hres : calculateOptimalBendPosition f t a1 a2 =
      (if |den| < 1/10000 then midpointOf f t
       else if t1 < 1/2 then midpointOf f t
       else if hypotSumLtTwice (distSq knee (stationPos f)) (distSq knee (stationPos t))
          (distSq (stationPos t) (stationPos f)) then knee else midpointOf f t) := by
    unfold calculateOptimalBendPosition solveLineIntersection
    dsimp only
    rw [← hden, ← ht1, ← hknee]
    by_cases hd : |den| < 1/10000
    · rw [if_pos hd, if_pos hd]
    · rw [if_neg hd, if_neg hd]
      by_cases ht : t1 < 1/2
      · rw [if_pos ht, if_pos ht]
      · rw [if_neg ht, if_neg ht]
  by_cases hd : |den| < 1/10000
  · rw [hres, if_pos hd]
    exact ⟨⟨fun _ => Or.inl hd, fun _ => rfl⟩, fun hnf => absurd (Or.inl hd) hnf⟩
  · by_cases ht : t1 < 1/2
    · rw [hres, if_neg hd, if_pos ht]
      exact ⟨⟨fun _ => Or.inr (Or.inl ht), fun _ => rfl⟩,
        fun hnf => absurd (Or.inr (Or.inl ht)) hnf⟩
    · -- non-degenerate intersection branch
      have h12 : 1/2 ≤ t1 := not_lt.mp ht
      have hdn0 : den ≠ 0 := by
        intro h0
        rw [h0] at hd
        simp at hd
      have hT0 : t1 ≠ 0 := by
        intro h0
        rw [h0] at h12
        norm_num at h12
      have hzden : (((DIRECTION_VECTORS a1).1 * (-(DIRECTION_VECTORS a2).2) -
          (DIRECTION_VECTORS a1).2 * (-(DIRECTION_VECTORS a2).1) : ℤ) : ℚ) = den := by
        rw [hden]; push_cast; ring
      have hzden0 : ((DIRECTION_VECTORS a1).1 * (-(DIRECTION_VECTORS a2).2) -
          (DIRECTION_VECTORS a1).2 * (-(DIRECTION_VECTORS a2).1) : ℤ) ≠ 0 := by
        intro h0
        apply hdn0
        rw [← hzden, h0]
        norm_num
      have hdenne : ((DIRECTION_VECTORS a1).1 : ℚ) * (-((DIRECTION_VECTORS a2).2 : ℚ)) -
          ((DIRECTION_VECTORS a1).2 : ℚ) * (-((DIRECTION_VECTORS a2).1 : ℚ)) ≠ 0 := by
        rw [← hden]; exact hdn0
      -- the knee lies on the backward ray from `to` as well
      have hsecond := lineIntersection_on_second (f.vertexX : ℚ) (f.vertexY : ℚ)
        ((DIRECTION_VECTORS a1).1 : ℚ) ((DIRECTION_VECTORS a1).2 : ℚ)
        (t.vertexX : ℚ) (t.vertexY : ℚ)
        (-((DIRECTION_VECTORS a2).1 : ℚ)) (-((DIRECTION_VECTORS a2).2 : ℚ)) hdenne
      rw [← hden, ← ht1] at hsecond
      set t2 : ℚ := (((t.vertexX : ℚ) - (f.vertexX : ℚ)) * ((DIRECTION_VECTORS a1).2 : ℚ) -
        ((t.vertexY : ℚ) - (f.vertexY : ℚ)) * ((DIRECTION_VECTORS a1).1 : ℚ)) / den with ht2
      have hK1 : (f.vertexX : ℚ) + t1 * ((DIRECTION_VECTORS a1).1 : ℚ) =
          (t.vertexX : ℚ) + t2 * (-((DIRECTION_VECTORS a2).1 : ℚ)) := hsecond.1
      have hK2 : (f.vertexY : ℚ) + t1 * ((DIRECTION_VECTORS a1).2 : ℚ) =
          (t.vertexY : ℚ) + t2 * (-((DIRECTION_VECTORS a2).2 : ℚ)) := hsecond.2
      -- squared-distance identities
      have hpeq : distSq knee (stationPos f) = t1^2 * ((dirNormSq a1 : ℤ) : ℚ) := by
        rw [hknee]
        unfold distSq stationPos dirNormSq
        push_cast
        ring
      have hqeq : distSq knee (stationPos t) = t2^2 * ((dirNormSq a2 : ℤ) : ℚ) := by
        rw [hknee]
        unfold distSq stationPos dirNormSq
        rw [show ((f.vertexX : ℚ) + t1 * ((DIRECTION_VECTORS a1).1 : ℚ), 
          (f.vertexY : ℚ) + t1 * ((DIRECTION_VECTORS a1).2 : ℚ)).1 = 
          (f.vertexX : ℚ) + t1 * ((DIRECTION_VECTORS a1).1 : ℚ) from rfl]
        rw [hK1, hK2]
        push_cast
        ring
      have hTX : (t.vertexX : ℚ) - (f.vertexX : ℚ) =
          t1 * ((DIRECTION_VECTORS a1).1 : ℚ) - t2 * (-((DIRECTION_VECTORS a2).1 : ℚ)) := by
        linarith [hK1]
      have hTY : (t.vertexY : ℚ) - (f.vertexY : ℚ) =
          t1 * ((DIRECTION_VECTORS a1).2 : ℚ) - t2 * (-((DIRECTION_VECTORS a2).2 : ℚ)) := by
        linarith [hK2]
      have hceq : distSq (stationPos t) (stationPos f) =
          t1^2 * ((dirNormSq a1 : ℤ) : ℚ) + t2^2 * ((dirNormSq a2 : ℤ) : ℚ) -
          2*(t1*t2) * (((DIRECTION_VECTORS a1).1 * (-(DIRECTION_VECTORS a2).1) +
            (DIRECTION_VECTORS a1).2 * (-(DIRECTION_VECTORS a2).2) : ℤ) : ℚ) := by
        unfold distSq stationPos dirNormSq
        rw [show ((t.vertexX : ℚ), (t.vertexY : ℚ)).1 = (t.vertexX : ℚ) from rfl]
        rw [show ((t.vertexX : ℚ), (t.vertexY : ℚ)).2 = (t.vertexY : ℚ) from rfl]
        rw [show ((f.vertexX : ℚ), (f.vertexY : ℚ)).1 = (f.vertexX : ℚ) from rfl]
        rw [show ((f.vertexX : ℚ), (f.vertexY : ℚ)).2 = (f.vertexY : ℚ) from rfl]
        rw [hTX, hTY]
        push_cast
        ring
      -- side conditions of the no-tie lemma
      have hn1Q : ((dirNormSq a1 : ℤ) : ℚ) = 1 ∨ ((dirNormSq a1 : ℤ) : ℚ) = 2 := by
        rcases dirNormSq_cases a1 with h | h <;> [left; right] <;> exact_mod_cast h
      have hn2Q : ((dirNormSq a2 : ℤ) : ℚ) = 1 ∨ ((dirNormSq a2 : ℤ) : ℚ) = 2 := by
        rcases dirNormSq_cases a2 with h | h <;> [left; right] <;> exact_mod_cast h
      have hcaseQ : ((dirNormSq a1 : ℤ) : ℚ) * ((dirNormSq a2 : ℤ) : ℚ) = 2 ∨
          (((DIRECTION_VECTORS a1).1 * (-(DIRECTION_VECTORS a2).1) +
            (DIRECTION_VECTORS a1).2 * (-(DIRECTION_VECTORS a2).2) : ℤ) : ℚ) = 0 := by
        rcases dirPair_cases a1 a2 hzden0 with h | h <;> [left; right] <;> exact_mod_cast h
      have hne := sqrt_sum_ne_twice ((dirNormSq a1 : ℤ) : ℚ) ((dirNormSq a2 : ℤ) : ℚ)
        (((DIRECTION_VECTORS a1).1 * (-(DIRECTION_VECTORS a2).1) +
          (DIRECTION_VECTORS a1).2 * (-(DIRECTION_VECTORS a2).2) : ℤ) : ℚ) t1 t2
        (distSq (stationPos t) (stationPos f)) hn1Q hn2Q hcaseQ h12 hceq
        (distSq_nonneg _ _)
      rw [← hpeq, ← hqeq] at hne
      have hbridge := hypotSumLtTwice_iff (distSq knee (stationPos f))
        (distSq knee (stationPos t)) (distSq (stationPos t) (stationPos f))
        (distSq_nonneg _ _) (distSq_nonneg _ _) (distSq_nonneg _ _)
      by_cases hcond : hypotSumLtTwice (distSq knee (stationPos f))
          (distSq knee (stationPos t)) (distSq (stationPos t) (stationPos f))
      · have hlt := hbridge.mp hcond
        rw [hres, if_neg hd, if_neg ht, if_pos hcond]
        constructor
        · constructor
          · intro hKM
            exfalso
            rw [hknee] at hKM
            unfold midpointOf at hKM
            have hKMx := congrArg Prod.fst hKM
            have hKMy := congrArg Prod.snd hKM
            simp only [] at hKMx hKMy
            have e1 : t1 * ((DIRECTION_VECTORS a1).1 : ℚ) +
                t2 * (-((DIRECTION_VECTORS a2).1 : ℚ)) = 0 := by
              linarith [hK1, hKMx]
            have e2 : t1 * ((DIRECTION_VECTORS a1).2 : ℚ) +
                t2 * (-((DIRECTION_VECTORS a2).2 : ℚ)) = 0 := by
              linarith [hK2, hKMy]
            have hzero : t1 * den = 0 := by
              rw [hden]
              linear_combination (-((DIRECTION_VECTORS a2).2 : ℚ)) * e1 -
                (-((DIRECTION_VECTORS a2).1 : ℚ)) * e2
            rcases mul_eq_zero.mp hzero with h0 | h0
            · exact hT0 h0
            · exact hdn0 h0
          · intro hfb
            exfalso
            rcases hfb with h | h | h
            · exact hd h
            · exact ht h
            · linarith [hlt, h]
        · intro _
          rfl
      · have hge : 2 * Real.sqrt ((distSq (stationPos t) (stationPos f) : ℚ) : ℝ) ≤
            Real.sqrt ((distSq knee (stationPos f) : ℚ) : ℝ) +
            Real.sqrt ((distSq knee (stationPos t) : ℚ) : ℝ) := by
          by_contra hcon
          exact hcond (hbridge.mpr (by linarith [not_le.mp hcon]))
        have hstrict : 2 * Real.sqrt ((distSq (stationPos t) (stationPos f) : ℚ) : ℝ) <
            Real.sqrt ((distSq knee (stationPos f) : ℚ) : ℝ) +
            Real.sqrt ((distSq knee (stationPos t) : ℚ) : ℝ) :=
          lt_of_le_of_ne hge (fun h => hne h.symm)
        rw [hres, if_neg hd, if_neg ht, if_neg hcond]
        exact ⟨⟨fun _ => Or.inr (Or.inr hstrict), fun _ => rfl⟩,
          fun hnf => absurd (Or.inr (Or.inr hstrict)) hnf⟩

section

attribute [local semireducible] Rat.mul Rat.add Rat.sub Rat.inv

/-- Witness for C6: for stations (0,0), (4,3) with ray directions EAST and
SOUTH the determinant is -1, the forward parameter is 4, and the leg lengths
4 and 3 satisfy 4 + 3 < 2·5, so no fallback condition holds and the bend
position is the genuine ray intersection (4,0). -/
theorem C6_witness :
    calculateOptimalBendPosition ⟨0, 0⟩ ⟨4, 3⟩ .EAST .SOUTH = ((4 : ℚ), (0 : ℚ)) := by
  have hd25 : ((distSq (stationPos ⟨4, 3⟩) (stationPos ⟨0, 0⟩) : ℚ) : ℝ) = 25 := by
    norm_num [distSq, stationPos]
  have hd16 : ((distSq ((4 : ℚ), (0 : ℚ)) (stationPos ⟨0, 0⟩) : ℚ) : ℝ) = 16 := by
    norm_num [distSq, stationPos]
  have hd9 : ((distSq ((4 : ℚ), (0 : ℚ)) (stationPos ⟨4, 3⟩) : ℚ) : ℝ) = 9 := by
    norm_num [distSq, stationPos]
  have hs25 : Real.sqrt 25 = 5 := by
    rw [show (25 : ℝ) = 5 ^ 2 by norm_num, Real.sqrt_sq (by norm_num : (0:ℝ) ≤ 5)]
  have hs16 : Real.sqrt 16 = 4 := by
    rw [show (16 : ℝ) = 4 ^ 2 by norm_num, Real.sqrt_sq (by norm_num : (0:ℝ) ≤ 4)]
  have hs9 : Real.sqrt 9 = 3 := by
    rw [show (9 : ℝ) = 3 ^ 2 by norm_num, Real.sqrt_sq (by norm_num : (0:ℝ) ≤ 3)]
  refine (C6_bend_fallback ⟨0, 0⟩ ⟨4, 3⟩ .EAST .SOUTH (-1) 4 ((4 : ℚ), (0 : ℚ))
    (by decide) (by decide) (by decide)).2 ?_
  intro h
  rcases h with h | h | h
  · exact absurd h (by decide)
  · exact absurd h (by decide)
  · rw [hd25, hd16, hd9, hs25, hs16, hs9] at h
    norm_num at h

end
